import Mathlib

/-!
# Verification of the bigd bounded concurrent pipeline (main.go)

This file gives a shallow embedding of the Go program in `main.go`:

* `gzFilesInfoIn` — the directory-listing filter (backwards in-place deletion
  loop over the listing), modelled over an abstract listing result.
* `digestBody` — the per-item body of `digest`: open the file, construct a
  gzip reader, read all, with early return on each failure; the three
  I/O stages (`os.Open`, `gzip.NewReader`, `ioutil.ReadAll`) are abstract
  parameters (a `GzEnv`), since their internals are outside the program.
* `Step` — a small-step operational semantics for the concurrency skeleton of
  `funnel` together with `main`'s consumer loop: the source-feeder goroutine
  (the `for _, v := range fsi.fsi { select ... }` loop followed by
  `close(paths)`), the `width = 16` digester goroutines, the
  `wg.Wait(); close(c)` completion tracker, the single-slot buffered error
  channel `errc`, the unbuffered channels `paths` and `c` (modelled as
  rendezvous steps), the `done` cancellation channel (a monotone flag), and
  the consumer loop of `main` (`for r := range rs { select errc / default }`).

Goroutine interleaving is arbitrary: `Step` is a nondeterministic relation and
all safety results are proved for every reachable state.  `applyLabel` is an
executable form of `Step` used to build concrete executions.
-/

namespace Bigd

/-- Errors are opaque to the program; `errors.New("canceled")` and the I/O
errors are only compared and carried, so a string model suffices. -/
abbrev GoError := String

/-- `result` from main.go: a full file path, processed data, and error (if
any).  `err = none` models a nil error. -/
structure result where
  path : String
  data : String
  err : Option GoError
  deriving DecidableEq, Repr

/-- An `os.FileInfo` as far as the program inspects it: `Name()` and
`IsDir()`. -/
structure FileInfo where
  name : String
  isDir : Bool
  deriving DecidableEq, Repr

/-- `filesInfo` from main.go: a directory name with the listing kept from
it. -/
structure filesInfo where
  dir : String
  fsi : List FileInfo
  deriving DecidableEq, Repr

/-- `strings.HasSuffix`, over the character sequence of the strings (for the
well-formed names compared against the ASCII suffix `".gz"`, the byte-level
check of the Go library and the character-level check agree). -/
def hasSuffixGo (s suf : String) : Bool :=
  suf.data.isSuffixOf s.data

/-- The filter predicate kept by `gzFilesInfoIn`: the loop REMOVES an entry
when `fsi[k].IsDir() || !strings.HasSuffix(fsi[k].Name(), ".gz")`, so an
entry is kept exactly when it is not a directory and has the `.gz` suffix. -/
def keepGz (fi : FileInfo) : Bool :=
  !fi.isDir && hasSuffixGo fi.name ".gz"

/-- One pass of the deletion loop of `gzFilesInfoIn`:
`for k := len(fsi)-1; k >= 0; k--`, removing index `k` when the entry is a
directory or lacks the `.gz` suffix (`fsi = append(fsi[:k], fsi[k+1:]...)`).
`pruneFrom l k` runs the loop for indices `k-1, k-2, ..., 0`; the program
invokes it with `k = l.length`. -/
def pruneFrom (l : List FileInfo) : Nat → List FileInfo
  | 0 => l
  | k + 1 =>
    match l[k]? with
    | none => pruneFrom l k
    | some fi =>
      if keepGz fi then pruneFrom l k
      else pruneFrom (l.eraseIdx k) k

/-- `gzFilesInfoIn` from main.go, over the abstract result of
`ioutil.ReadDir(dir)`: on a listing error it returns that error; otherwise it
prunes the listing backwards and wraps it with the directory. -/
def gzFilesInfoIn (dir : String) (readDir : Except GoError (List FileInfo)) :
    Except GoError filesInfo :=
  match readDir with
  | .error e => .error e
  | .ok fsi => .ok { dir := dir, fsi := pruneFrom fsi fsi.length }

theorem pruneFrom_eq (l : List FileInfo) (k : Nat) (hk : k ≤ l.length) :
    pruneFrom l k = (l.take k).filter keepGz ++ l.drop k := by
  induction k generalizing l with
  | zero => simp [pruneFrom]
  | succ k ih =>
    have hlt : k < l.length := hk
    have hget : l[k]? = some l[k] := List.getElem?_eq_getElem hlt
    by_cases hkeep : keepGz l[k]
    · have : pruneFrom l (k + 1) = pruneFrom l k := by
        simp [pruneFrom, hget, hkeep]
      rw [this, ih l hlt.le]
      have htake : l.take (k + 1) = l.take k ++ [l[k]] := by
        rw [List.take_succ, hget]; rfl
      have hdrop : l.drop k = l[k] :: l.drop (k + 1) :=
        List.drop_eq_getElem_cons hlt
      rw [htake, hdrop, List.filter_append]
      simp [hkeep]
    · have hstep : pruneFrom l (k + 1) = pruneFrom (l.eraseIdx k) k := by
        simp [pruneFrom, hget, hkeep]
      have hlen : k ≤ (l.eraseIdx k).length := by
        have := List.length_eraseIdx_add_one hlt
        omega
      rw [hstep, ih _ hlen]
      have herase : l.eraseIdx k = l.take k ++ l.drop (k + 1) :=
        List.eraseIdx_eq_take_drop_succ l k
      have htake2 : (l.eraseIdx k).take k = l.take k := by
        rw [herase, List.take_append_of_le_length]
        · simp [List.take_take]
        · simp; omega
      have hdrop2 : (l.eraseIdx k).drop k = l.drop (k + 1) := by
        rw [herase, List.drop_append_of_le_length]
        · simp [hlt.le]
        · simp; omega
      have htake : l.take (k + 1) = l.take k ++ [l[k]] := by
        rw [List.take_succ, hget]; rfl
      rw [htake2, hdrop2, htake, List.filter_append]
      simp [hkeep]

/-- C10: For every directory listing that `gzFilesInfoIn` reads
successfully, the returned `filesInfo` holds exactly the entries of the
listing that are not directories and end in `.gz`, in listing order, with
`dir` equal to the argument; on a listing failure it propagates the error
(the Go function returns a nil pointer together with the error, modelled as
the `Except.error` branch carrying no `filesInfo`). -/
theorem C10_gzFilesInfoIn_filter (dir : String) (l : List FileInfo)
    (e : GoError) :
    gzFilesInfoIn dir (.ok l) =
      .ok { dir := dir, fsi := l.filter keepGz } ∧
    gzFilesInfoIn dir (.error e) = .error e := by
  constructor
  · simp only [gzFilesInfoIn]
    rw [pruneFrom_eq l l.length le_rfl]
    simp
  · rfl

/-- Witness for C10 at a concrete listing. -/
theorem C10_gzFilesInfoIn_filter_witness :
    gzFilesInfoIn "./testdata/"
        (.ok [⟨"a.gz", false⟩, ⟨"sub", true⟩, ⟨"b.txt", false⟩,
              ⟨"c.gz", false⟩]) =
      .ok { dir := "./testdata/",
            fsi := [⟨"a.gz", false⟩, ⟨"c.gz", false⟩] } ∧
    gzFilesInfoIn "./testdata/" (.error "permission denied") =
      .error "permission denied" := by
  have h := C10_gzFilesInfoIn_filter "./testdata/"
    [⟨"a.gz", false⟩, ⟨"sub", true⟩, ⟨"b.txt", false⟩, ⟨"c.gz", false⟩]
    "permission denied"
  exact ⟨by rw [h.1]; exact congrArg Except.ok (by decide), h.2⟩

/-! ## The per-item transformation (body of `digest`) -/

/-- The three I/O stages used by the body of `digest`.  Their internals are
library code outside this program; each either fails with a Go error or
yields a value.  File handles and gzip readers are opaque to the program, so
they are represented by the data they give access to. -/
structure GzEnv where
  /-- `os.Open p` -/
  osOpen : String → Except GoError String
  /-- `gzip.NewReader f` -/
  gzipNewReader : String → Except GoError String
  /-- `ioutil.ReadAll gzr` -/
  readAll : String → Except GoError String

/-- The body of `digest`'s loop for one path `p`: start from
`r := result{path: p}`, then open, construct the gzip reader, and read,
returning early (with `r.err` set and `r.data` still empty) on each failure;
on success `r.data` is set to the decompressed bytes.  The `defer`red
`Close` calls release resources and do not alter `r`. -/
def digestBody (env : GzEnv) (p : String) : result :=
  match env.osOpen p with
  | .error e => { path := p, data := "", err := some e }
  | .ok f =>
    match env.gzipNewReader f with
    | .error e => { path := p, data := "", err := some e }
    | .ok gzr =>
      match env.readAll gzr with
      | .error e => { path := p, data := "", err := some e }
      | .ok data => { path := p, data := data, err := none }

theorem digestBody_path (env : GzEnv) (p : String) :
    (digestBody env p).path = p := by
  rcases h1 : env.osOpen p with e | f
  · simp [digestBody, h1]
  · rcases h2 : env.gzipNewReader f with e | gzr
    · simp [digestBody, h1, h2]
    · rcases h3 : env.readAll gzr with e | d <;> simp [digestBody, h1, h2, h3]

/-- `digestBody env p` is `digestBody` applied at its own path field. -/
theorem digestBody_self (env : GzEnv) (p : String) :
    digestBody env p = digestBody env (digestBody env p).path := by
  rw [digestBody_path]

/-- C8: The per-item transformation is a total function (it never throws
across the worker boundary: every branch of `digestBody` returns a
`result`), and on each of its three failure modes — open failure,
gzip-header decode failure, read failure — the failure is returned inside
the `result`'s error field, with the data field the empty string and the
path field equal to the input path.  On success the error field is `none`. -/
theorem C8_digest_total_failures (env : GzEnv) (p : String) :
    (∀ e, env.osOpen p = .error e →
      digestBody env p = { path := p, data := "", err := some e }) ∧
    (∀ f e, env.osOpen p = .ok f → env.gzipNewReader f = .error e →
      digestBody env p = { path := p, data := "", err := some e }) ∧
    (∀ f gz e, env.osOpen p = .ok f → env.gzipNewReader f = .ok gz →
      env.readAll gz = .error e →
      digestBody env p = { path := p, data := "", err := some e }) ∧
    (∀ f gz d, env.osOpen p = .ok f → env.gzipNewReader f = .ok gz →
      env.readAll gz = .ok d →
      digestBody env p = { path := p, data := d, err := none }) ∧
    (digestBody env p).path = p := by
  refine ⟨?_, ?_, ?_, ?_, digestBody_path env p⟩
  · intro e hopen
    simp [digestBody, hopen]
  · intro f e hopen hgz
    simp [digestBody, hopen, hgz]
  · intro f gz e hopen hgz hread
    simp [digestBody, hopen, hgz, hread]
  · intro f gz d hopen hgz hread
    simp [digestBody, hopen, hgz, hread]

/-- A concrete environment used by the executions below: `"d/a.gz"` opens and
decompresses to `"hello"`, `"d/b.gz"` opens but its gzip header is invalid,
`"d/c.gz"` opens and reads truncated data, anything else fails to open. -/
def envDemo : GzEnv where
  osOpen p :=
    if p = "d/a.gz" then .ok "a-handle"
    else if p = "d/b.gz" then .ok "b-handle"
    else if p = "d/c.gz" then .ok "c-handle"
    else .error "open: no such file"
  gzipNewReader f :=
    if f = "b-handle" then .error "gzip: invalid header" else .ok f
  readAll gzr :=
    if gzr = "a-handle" then .ok "hello"
    else .error "unexpected EOF"

/-- Witness for C8: the concrete environment exercises the success case, the
gzip-header failure, the read failure, and the open failure. -/
theorem C8_digest_total_failures_witness :
    digestBody envDemo "d/a.gz" =
      { path := "d/a.gz", data := "hello", err := none } ∧
    digestBody envDemo "d/b.gz" =
      { path := "d/b.gz", data := "", err := some "gzip: invalid header" } ∧
    digestBody envDemo "d/c.gz" =
      { path := "d/c.gz", data := "", err := some "unexpected EOF" } ∧
    digestBody envDemo "d/x.gz" =
      { path := "d/x.gz", data := "", err := some "open: no such file" } := by
  refine ⟨?_, ?_, ?_, ?_⟩
  · exact (C8_digest_total_failures envDemo "d/a.gz").2.2.2.1
      "a-handle" "a-handle" "hello" rfl rfl rfl
  · exact (C8_digest_total_failures envDemo "d/b.gz").2.1
      "b-handle" "gzip: invalid header" rfl rfl
  · exact (C8_digest_total_failures envDemo "d/c.gz").2.2.1
      "c-handle" "c-handle" "unexpected EOF" rfl rfl rfl
  · exact (C8_digest_total_failures envDemo "d/x.gz").1
      "open: no such file" rfl

/-! ## The `funnel` pipeline as a labelled transition system

`funnel` wires up: the feeder goroutine iterating `fsi.fsi` with a
`select { paths <- ... / <-done }` per item followed by `close(paths)`;
`width = 16` digester goroutines each looping
`for p := range paths { ...; select { c <- r / <-done return } }`;
the tracker goroutine `wg.Wait(); close(c)`; the buffered channel
`errc := make(chan error, 1)`; and `main`'s consumer loop
`for r := range rs { select { err := <-errc: exit / default: print } }`.

The unbuffered channels `paths` and `c` are rendezvous: a send and its
matching receive are one joint transition.  The `done` channel carries no
values and is only ever closed, so it is a monotone boolean flag; closing it
(`main`'s signal handler) is the `cancel` step.  Since `digest`'s
transformation of one item is pure and local to the worker, taking a path
from `paths` and computing `digestBody` of it form one transition; the
worker is then at its publishing `select`.  All goroutines are running from
the initial state (`funnel` spawns them without blocking in between). -/

/-- `width` from main.go: the number of digester goroutines. -/
def width : Nat := 16

/-- Control point of the feeder goroutine (the first anonymous goroutine of
`funnel`). -/
inductive FeederPhase
  /-- At the head of `for _, v := range fsi.fsi`, about to run the `select`
  for item `fIdx` (or `close(paths)` when the range is exhausted). -/
  | loop
  /-- The `<-done` case of the `select` fired: executing
  `errc <- errors.New("canceled")`.  Note the loop then CONTINUES with the
  next item — the source has no `return` here. -/
  | errSend
  /-- `close(paths)` executed; the feeder goroutine has returned. -/
  | closedPaths
  deriving DecidableEq, Repr

/-- Control point of one digester goroutine. -/
inductive WorkerPhase
  /-- Blocked in `for p := range paths`. -/
  | await
  /-- Holding a constructed `result`, at `select { c <- r / <-done }`. -/
  | publish (r : result)
  /-- `digest` returned and `wg.Done()` ran. -/
  | exited
  deriving DecidableEq, Repr

/-- Control point of `main`'s consumer loop. -/
inductive ConsumerPhase
  /-- Blocked receiving in `for r := range rs`. -/
  | recv
  /-- Received a result; at the `select` polling `errc` (with `default`). -/
  | check
  /-- The range loop ended: the results channel is closed and empty. -/
  | drained
  /-- The `errc` case fired: `main` prints the error and exits. -/
  | aborted
  deriving DecidableEq, Repr

/-- A global state of the pipeline.  `items` (the joined paths
`path.Join(fsi.dir, v.Name())`, in enumeration order) and the I/O
environment are parameters of the step relation, not of the state. -/
structure PState where
  /-- Whether the `done` channel has been closed. -/
  done : Bool
  /-- How many items the feeder's range loop has finished with. -/
  fIdx : Nat
  fPh : FeederPhase
  /-- The 16 digester goroutines. -/
  workers : List WorkerPhase
  /-- Content of the one-slot buffered channel `errc`. -/
  errc : Option GoError
  /-- Whether `close(c)` has run. -/
  cClosed : Bool
  cons : ConsumerPhase
  /-- The results received so far by the consumer, in arrival order. -/
  outputs : List result
  deriving DecidableEq, Repr

/-- The state right after `funnel` returns and `main` enters its loop. -/
def initState : PState :=
  { done := false, fIdx := 0, fPh := .loop,
    workers := List.replicate width .await,
    errc := none, cClosed := false, cons := .recv, outputs := [] }

/-- One interleaving step of the pipeline.  Every goroutine boundary of the
source is covered by exactly one constructor. -/
inductive Step (env : GzEnv) (items : List String) : PState → PState → Prop
  /-- The feeder's `paths <- path.Join(...)` rendezvouses with worker `i`'s
  `for p := range paths`; the worker transforms the item (pure, local) and
  reaches its publishing `select`. -/
  | offer (s : PState) (i : Nat) (p : String)
      (hf : s.fPh = .loop) (hp : items[s.fIdx]? = some p)
      (hw : s.workers[i]? = some .await) :
      Step env items s
        { s with fIdx := s.fIdx + 1,
                 workers := s.workers.set i (.publish (digestBody env p)) }
  /-- The `<-done` case of the feeder's `select` fires (possible whenever
  `done` is closed and an item remains to offer). -/
  | feederDone (s : PState)
      (hf : s.fPh = .loop) (hlt : s.fIdx < items.length)
      (hd : s.done = true) :
      Step env items s { s with fPh := .errSend }
  /-- `errc <- errors.New("canceled")` completes: only possible while the
  one-slot buffer is empty.  The loop then moves on to the next item. -/
  | errPut (s : PState) (hf : s.fPh = .errSend) (he : s.errc = none) :
      Step env items s
        { s with errc := some "canceled", fIdx := s.fIdx + 1, fPh := .loop }
  /-- The range over `fsi.fsi` is exhausted: `close(paths)` runs. -/
  | closePaths (s : PState) (hf : s.fPh = .loop)
      (hidx : items.length ≤ s.fIdx) :
      Step env items s { s with fPh := .closedPaths }
  /-- A worker blocked on `paths` sees it closed (and empty, as `paths` is
  unbuffered): its range loop ends, `digest` returns, `wg.Done()` runs. -/
  | workerExit (s : PState) (i : Nat)
      (hw : s.workers[i]? = some .await) (hf : s.fPh = .closedPaths) :
      Step env items s { s with workers := s.workers.set i .exited }
  /-- Worker `i`'s `c <- r` rendezvouses with the consumer's
  `for r := range rs`; the consumer proceeds to its `errc` poll. -/
  | publish (s : PState) (i : Nat) (r : result)
      (hw : s.workers[i]? = some (.publish r)) (hc : s.cons = .recv) :
      Step env items s
        { s with workers := s.workers.set i .await,
                 outputs := s.outputs ++ [r], cons := .check }
  /-- The `<-done` case of worker `i`'s publishing `select` fires: the
  result is abandoned and `digest` returns. -/
  | abandon (s : PState) (i : Nat) (r : result)
      (hw : s.workers[i]? = some (.publish r)) (hd : s.done = true) :
      Step env items s { s with workers := s.workers.set i .exited }
  /-- The consumer's `select` finds `errc` nonempty: the error is received
  and `main` exits; the consumer reads nothing further. -/
  | checkAbort (s : PState) (e : GoError)
      (hc : s.cons = .check) (he : s.errc = some e) :
      Step env items s { s with cons := .aborted, errc := none }
  /-- The consumer's `select` finds `errc` empty: the `default` case prints
  the result and the loop continues. -/
  | checkCont (s : PState) (hc : s.cons = .check) (he : s.errc = none) :
      Step env items s { s with cons := .recv }
  /-- The tracker's `wg.Wait()` returns — every worker has called
  `wg.Done()` — and `close(c)` runs. -/
  | closeC (s : PState)
      (hall : ∀ w ∈ s.workers, w = .exited) (hcc : s.cClosed = false) :
      Step env items s { s with cClosed := true }
  /-- The consumer, blocked on `c`, sees it closed: its range loop ends. -/
  | consFinish (s : PState) (hc : s.cons = .recv) (hcc : s.cClosed = true) :
      Step env items s { s with cons := .drained }
  /-- Cancellation: `close(done)` (from `main`'s signal callback or deferred
  close).  `done` only ever goes from open to closed. -/
  | cancel (s : PState) (hd : s.done = false) :
      Step env items s { s with done := true }

/-- Reachability from the initial state under arbitrary interleaving. -/
def Reach (env : GzEnv) (items : List String) (s : PState) : Prop :=
  Relation.ReflTransGen (Step env items) initState s

/-- A name for each `Step` constructor, to drive the executable semantics. -/
inductive Label
  | offer (i : Nat)
  | feederDone
  | errPut
  | closePaths
  | workerExit (i : Nat)
  | publish (i : Nat)
  | abandon (i : Nat)
  | checkAbort
  | checkCont
  | closeC
  | consFinish
  | cancel
  deriving DecidableEq, Repr

/-- Executable form of `Step`: apply one labelled transition if enabled. -/
def applyLabel (env : GzEnv) (items : List String) (s : PState) :
    Label → Option PState
  | .offer i =>
    match s.fPh, items[s.fIdx]?, s.workers[i]? with
    | .loop, some p, some .await =>
      some { s with fIdx := s.fIdx + 1,
                    workers := s.workers.set i (.publish (digestBody env p)) }
    | _, _, _ => none
  | .feederDone =>
    if s.fPh = .loop ∧ s.fIdx < items.length ∧ s.done = true then
      some { s with fPh := .errSend }
    else none
  | .errPut =>
    if s.fPh = .errSend ∧ s.errc = none then
      some { s with errc := some "canceled", fIdx := s.fIdx + 1,
                    fPh := .loop }
    else none
  | .closePaths =>
    if s.fPh = .loop ∧ items.length ≤ s.fIdx then
      some { s with fPh := .closedPaths }
    else none
  | .workerExit i =>
    match s.workers[i]?, s.fPh with
    | some .await, .closedPaths => some { s with workers := s.workers.set i .exited }
    | _, _ => none
  | .publish i =>
    match s.workers[i]?, s.cons with
    | some (.publish r), .recv =>
      some { s with workers := s.workers.set i .await,
                    outputs := s.outputs ++ [r], cons := .check }
    | _, _ => none
  | .abandon i =>
    match s.workers[i]?, s.done with
    | some (.publish _), true => some { s with workers := s.workers.set i .exited }
    | _, _ => none
  | .checkAbort =>
    match s.cons, s.errc with
    | .check, some _ => some { s with cons := .aborted, errc := none }
    | _, _ => none
  | .checkCont =>
    if s.cons = .check ∧ s.errc = none then some { s with cons := .recv }
    else none
  | .closeC =>
    if (∀ w ∈ s.workers, w = .exited) ∧ s.cClosed = false then
      some { s with cClosed := true }
    else none
  | .consFinish =>
    if s.cons = .recv ∧ s.cClosed = true then some { s with cons := .drained }
    else none
  | .cancel =>
    if s.done = false then some { s with done := true } else none

theorem applyLabel_sound (env : GzEnv) (items : List String) (s s' : PState)
    (l : Label) (h : applyLabel env items s l = some s') :
    Step env items s s' := by
  cases l with
  | offer i =>
    simp only [applyLabel] at h
    split at h
    · next p hf hp hw =>
      cases Option.some.inj h
      exact .offer s i p hf hp hw
    · simp at h
  | feederDone =>
    simp only [applyLabel] at h
    split at h
    · next hcond =>
      cases Option.some.inj h
      exact .feederDone s hcond.1 hcond.2.1 hcond.2.2
    · simp at h
  | errPut =>
    simp only [applyLabel] at h
    split at h
    · next hcond =>
      cases Option.some.inj h
      exact .errPut s hcond.1 hcond.2
    · simp at h
  | closePaths =>
    simp only [applyLabel] at h
    split at h
    · next hcond =>
      cases Option.some.inj h
      exact .closePaths s hcond.1 hcond.2
    · simp at h
  | workerExit i =>
    simp only [applyLabel] at h
    split at h
    · next hw hf =>
      cases Option.some.inj h
      exact .workerExit s i hw hf
    · simp at h
  | publish i =>
    simp only [applyLabel] at h
    split at h
    · next r hw hc =>
      cases Option.some.inj h
      exact .publish s i r hw hc
    · simp at h
  | abandon i =>
    simp only [applyLabel] at h
    split at h
    · next r hw hd =>
      cases Option.some.inj h
      exact .abandon s i r hw hd
    · simp at h
  | checkAbort =>
    simp only [applyLabel] at h
    split at h
    · next e hc he =>
      cases Option.some.inj h
      exact .checkAbort s e hc he
    · simp at h
  | checkCont =>
    simp only [applyLabel] at h
    split at h
    · next hcond =>
      cases Option.some.inj h
      exact .checkCont s hcond.1 hcond.2
    · simp at h
  | closeC =>
    simp only [applyLabel] at h
    split at h
    · next hcond =>
      cases Option.some.inj h
      exact .closeC s hcond.1 hcond.2
    · simp at h
  | consFinish =>
    simp only [applyLabel] at h
    split at h
    · next hcond =>
      cases Option.some.inj h
      exact .consFinish s hcond.1 hcond.2
    · simp at h
  | cancel =>
    simp only [applyLabel] at h
    split at h
    · next hd =>
      cases Option.some.inj h
      exact .cancel s hd
    · simp at h

/-- Run a whole schedule of labels. -/
def runL (env : GzEnv) (items : List String) : PState → List Label → Option PState
  | s, [] => some s
  | s, l :: ls =>
    match applyLabel env items s l with
    | none => none
    | some s' => runL env items s' ls

theorem runL_reach (env : GzEnv) (items : List String) (ls : List Label)
    (s s' : PState) (h : runL env items s ls = some s') :
    Relation.ReflTransGen (Step env items) s s' := by
  induction ls generalizing s with
  | nil =>
    cases h
    exact .refl
  | cons l ls ih =>
    revert h
    unfold runL
    split
    · intro h; cases h
    · next s₁ happ =>
      intro h
      exact .head (applyLabel_sound env items s s₁ l happ) (ih s₁ h)

theorem runL_reach_init (env : GzEnv) (items : List String) (ls : List Label)
    (s : PState) (h : runL env items initState ls = some s) :
    Reach env items s :=
  runL_reach env items ls initState s h

/-- True for a worker holding a result at its publishing select. -/
def isPublish : WorkerPhase → Bool
  | .publish _ => true
  | _ => false

/-- Some transition of `Step` is enabled in `s` (decidable).  The eleven
disjuncts are the guards of the eleven non-`cancel` constructors, plus the
guard of `cancel`. -/
def EnabledP (items : List String) (s : PState) : Prop :=
  s.done = false ∨
  (s.fPh = .loop ∧ s.fIdx < items.length ∧ WorkerPhase.await ∈ s.workers) ∨
  (s.fPh = .loop ∧ s.fIdx < items.length ∧ s.done = true) ∨
  (s.fPh = .errSend ∧ s.errc = none) ∨
  (s.fPh = .loop ∧ items.length ≤ s.fIdx) ∨
  (s.fPh = .closedPaths ∧ WorkerPhase.await ∈ s.workers) ∨
  (s.cons = .recv ∧ s.workers.any isPublish = true) ∨
  (s.done = true ∧ s.workers.any isPublish = true) ∨
  s.cons = .check ∨
  (s.cClosed = false ∧ ∀ w ∈ s.workers, w = .exited) ∨
  (s.cons = .recv ∧ s.cClosed = true)

instance (items : List String) (s : PState) : Decidable (EnabledP items s) := by
  unfold EnabledP
  infer_instance

/-- Decidable check that some transition is enabled.  Used to exhibit
deadlocked states: `enabledB` is `false` exactly when no goroutine of the
pipeline, nor the consumer, nor a cancellation signal, can take a step (see
`no_step_of_not_enabledB`). -/
def enabledB (items : List String) (s : PState) : Bool :=
  decide (EnabledP items s)

/-- Soundness of the deadlock check: a state with `enabledB = false` has no
outgoing `Step` at all, whatever the interleaving — the pipeline can never
move again from it. -/
theorem no_step_of_not_enabledB (env : GzEnv) (items : List String)
    (s s' : PState) (hen : enabledB items s = false)
    (hst : Step env items s s') : False := by
  have hP : ¬ EnabledP items s := of_decide_eq_false hen
  apply hP
  unfold EnabledP
  cases hst with
  | offer i p hf hp hw =>
    have hlt : s.fIdx < items.length := by
      rcases List.getElem?_eq_some_iff.1 hp with ⟨h, _⟩
      exact h
    exact Or.inr (Or.inl ⟨hf, hlt, List.getElem?_mem hw⟩)
  | feederDone hf hlt hd =>
    exact Or.inr (Or.inr (Or.inl ⟨hf, hlt, hd⟩))
  | errPut hf he =>
    exact Or.inr (Or.inr (Or.inr (Or.inl ⟨hf, he⟩)))
  | closePaths hf hidx =>
    exact Or.inr (Or.inr (Or.inr (Or.inr (Or.inl ⟨hf, hidx⟩))))
  | workerExit i hw hf =>
    exact Or.inr (Or.inr (Or.inr (Or.inr (Or.inr (Or.inl
      ⟨hf, List.getElem?_mem hw⟩)))))
  | publish i r hw hc =>
    refine Or.inr (Or.inr (Or.inr (Or.inr (Or.inr (Or.inr (Or.inl
      ⟨hc, ?_⟩))))))
    exact List.any_eq_true.2 ⟨_, List.getElem?_mem hw, by simp [isPublish]⟩
  | abandon i r hw hd =>
    refine Or.inr (Or.inr (Or.inr (Or.inr (Or.inr (Or.inr (Or.inr (Or.inl
      ⟨hd, ?_⟩)))))))
    exact List.any_eq_true.2 ⟨_, List.getElem?_mem hw, by simp [isPublish]⟩
  | checkAbort e hc he =>
    exact Or.inr (Or.inr (Or.inr (Or.inr (Or.inr (Or.inr (Or.inr (Or.inr
      (Or.inl hc))))))))
  | checkCont hc he =>
    exact Or.inr (Or.inr (Or.inr (Or.inr (Or.inr (Or.inr (Or.inr (Or.inr
      (Or.inl hc))))))))
  | closeC hall hcc =>
    exact Or.inr (Or.inr (Or.inr (Or.inr (Or.inr (Or.inr (Or.inr (Or.inr
      (Or.inr (Or.inl ⟨hcc, hall⟩)))))))))
  | consFinish hc hcc =>
    exact Or.inr (Or.inr (Or.inr (Or.inr (Or.inr (Or.inr (Or.inr (Or.inr
      (Or.inr (Or.inr ⟨hc, hcc⟩)))))))))
  | cancel hd => exact Or.inl hd

/-- Some transition OF THE FEEDER GOROUTINE is enabled (decidable):
offering the next item, taking the done branch, completing the `errc` send,
or closing `paths`. -/
def FeederStepP (items : List String) (s : PState) : Prop :=
  (s.fPh = .loop ∧ s.fIdx < items.length ∧ WorkerPhase.await ∈ s.workers) ∨
  (s.fPh = .loop ∧ s.fIdx < items.length ∧ s.done = true) ∨
  (s.fPh = .errSend ∧ s.errc = none) ∨
  (s.fPh = .loop ∧ items.length ≤ s.fIdx)

instance (items : List String) (s : PState) : Decidable (FeederStepP items s) := by
  unfold FeederStepP
  infer_instance

/-- Decidable form of `FeederStepP`; when false, the feeder is blocked. -/
def feederStepB (items : List String) (s : PState) : Bool :=
  decide (FeederStepP items s)

/-- When `feederStepB` is false, no step changes the feeder's state: its
program counter and loop index are the same in every successor.  (All
transitions of other goroutines leave `fIdx` and `fPh` untouched.) -/
theorem feeder_blocked_of_not_feederStepB (env : GzEnv) (items : List String)
    (s s' : PState) (hen : feederStepB items s = false)
    (hst : Step env items s s') : s'.fIdx = s.fIdx ∧ s'.fPh = s.fPh := by
  have hP : ¬ FeederStepP items s := of_decide_eq_false hen
  cases hst with
  | offer i p hf hp hw =>
    exfalso
    apply hP
    have hlt : s.fIdx < items.length := by
      rcases List.getElem?_eq_some_iff.1 hp with ⟨h, _⟩
      exact h
    exact Or.inl ⟨hf, hlt, List.getElem?_mem hw⟩
  | feederDone hf hlt hd =>
    exact absurd (Or.inr (Or.inl ⟨hf, hlt, hd⟩)) hP
  | errPut hf he =>
    exact absurd (Or.inr (Or.inr (Or.inl ⟨hf, he⟩))) hP
  | closePaths hf hidx =>
    exact absurd (Or.inr (Or.inr (Or.inr ⟨hf, hidx⟩))) hP
  | workerExit i hw hf => exact ⟨rfl, rfl⟩
  | publish i r hw hc => exact ⟨rfl, rfl⟩
  | abandon i r hw hd => exact ⟨rfl, rfl⟩
  | checkAbort e hc he => exact ⟨rfl, rfl⟩
  | checkCont hc he => exact ⟨rfl, rfl⟩
  | closeC hall hcc => exact ⟨rfl, rfl⟩
  | consFinish hc hcc => exact ⟨rfl, rfl⟩
  | cancel hd => exact ⟨rfl, rfl⟩

/-! ## The reachability invariant -/

/-- The path held by a worker that is publishing, if any. -/
def pubPath : WorkerPhase → Option String
  | .publish r => some r.path
  | _ => none

/-- The paths of the results currently held by publishing workers. -/
def inflight (ws : List WorkerPhase) : List String :=
  ws.filterMap pubPath

theorem filterMap_split {α β : Type _} (f : α → Option β) (l : List α)
    (i : Nat) (a b : α) (h : l[i]? = some a) :
    l.filterMap f =
      (l.take i).filterMap f ++ (f a).toList ++ (l.drop (i + 1)).filterMap f ∧
    (l.set i b).filterMap f =
      (l.take i).filterMap f ++ (f b).toList ++ (l.drop (i + 1)).filterMap f := by
  induction l generalizing i with
  | nil => simp at h
  | cons x t ih =>
    cases i with
    | zero =>
      simp only [List.getElem?_cons_zero] at h
      cases Option.some.inj h
      constructor
      · simp only [List.filterMap_cons, List.take_zero, List.filterMap_nil,
          List.drop_succ_cons, List.drop_zero, List.nil_append]
        cases f a <;> simp
      · simp only [List.set_cons_zero, List.filterMap_cons, List.take_zero,
          List.filterMap_nil, List.drop_succ_cons, List.drop_zero,
          List.nil_append]
        cases f b <;> simp
    | succ i =>
      simp only [List.getElem?_cons_succ] at h
      obtain ⟨h1, h2⟩ := ih i h
      constructor
      · simp only [List.filterMap_cons, List.take_succ_cons,
          List.drop_succ_cons]
        cases f x <;> simp [h1]
      · simp only [List.set_cons_succ, List.filterMap_cons,
          List.take_succ_cons, List.drop_succ_cons]
        cases f x <;> simp [h2]

theorem inflight_set_nonpub (ws : List WorkerPhase) (i : Nat)
    (w w' : WorkerPhase) (hw : ws[i]? = some w)
    (h1 : pubPath w = none) (h2 : pubPath w' = none) :
    inflight (ws.set i w') = inflight ws := by
  obtain ⟨ha, hb⟩ := filterMap_split pubPath ws i w w' hw
  rw [inflight, inflight, hb, ha, h1, h2]

/-- The inductive invariant of the pipeline, proved for every reachable
state.  The fields guarded by `done = false` hold in cancellation-free
executions; the rest hold always. -/
structure Inv (env : GzEnv) (items : List String) (s : PState) : Prop where
  /-- There are always exactly `width` workers. -/
  wlen : s.workers.length = width
  /-- `close(c)` only happens after every worker has exited. -/
  closedAll : s.cClosed = true → ∀ w ∈ s.workers, w = .exited
  /-- The feeder only sends on `errc` mid-range. -/
  errIdx : s.fPh = .errSend → s.fIdx < items.length
  idxLe : s.fIdx ≤ items.length
  /-- `close(paths)` only happens with the range exhausted. -/
  closedIdx : s.fPh = .closedPaths → s.fIdx = items.length
  /-- The consumer's range only ends once `c` is closed. -/
  drainedClosed : s.cons = .drained → s.cClosed = true
  /-- Every received result is the digest of its own path. -/
  outSelf : ∀ r ∈ s.outputs, r = digestBody env r.path
  /-- Every in-flight result is the digest of its own path. -/
  pubSelf : ∀ r : result, WorkerPhase.publish r ∈ s.workers →
    r = digestBody env r.path
  /-- Without cancellation the feeder never reaches the `errc` send. -/
  quietErrSend : s.done = false → s.fPh ≠ .errSend
  /-- Without cancellation `errc` stays empty. -/
  quietErrc : s.done = false → s.errc = none
  /-- Without cancellation workers exit only through `close(paths)`. -/
  exitClosed : s.done = false → WorkerPhase.exited ∈ s.workers →
    s.fPh = .closedPaths
  /-- Conservation: received results, in-flight results and unoffered items
  together are exactly the enumerated items (as a multiset). -/
  perm : s.done = false →
    ((s.outputs.map result.path : List String) : Multiset String) +
      (inflight s.workers : Multiset String) +
      ((items.drop s.fIdx : List String) : Multiset String) =
      (items : Multiset String)

theorem inv_init (env : GzEnv) (items : List String) :
    Inv env items initState := by
  refine ⟨?_, ?_, ?_, ?_, ?_, ?_, ?_, ?_, ?_, ?_, ?_, ?_⟩
  · simp [initState]
  · intro hcc
    simp [initState] at hcc
  · intro hph
    simp [initState] at hph
  · simp [initState]
  · intro hph
    simp [initState] at hph
  · intro hc
    simp [initState] at hc
  · intro r hr
    simp [initState] at hr
  · intro r hr
    have := List.eq_of_mem_replicate hr
    simp at this
  · intro _
    simp [initState]
  · intro _
    simp [initState]
  · intro _ hmem
    have := List.eq_of_mem_replicate hmem
    simp at this
  · intro _
    have hinf : inflight (List.replicate width WorkerPhase.await) = [] := by
      rw [inflight, List.filterMap_eq_nil_iff]
      intro w hw
      have := List.eq_of_mem_replicate hw
      simp [this, pubPath]
    simp [initState, hinf]


theorem inv_step (env : GzEnv) (items : List String) {s s' : PState}
    (hst : Step env items s s') (h : Inv env items s) : Inv env items s' := by
  cases hst with
  | offer i p hf hp hw =>
    obtain ⟨hlt, hgetp⟩ := List.getElem?_eq_some_iff.1 hp
    refine ⟨?_, ?_, ?_, ?_, ?_, ?_, ?_, ?_, ?_, ?_, ?_, ?_⟩
    · rw [List.length_set]
      exact h.wlen
    · intro hcc w hwmem
      exact absurd (h.closedAll hcc _ (List.getElem?_mem hw)) (by simp)
    · intro hph
      rw [hf] at hph
      simp at hph
    · show s.fIdx + 1 ≤ items.length
      omega
    · intro hph
      rw [hf] at hph
      simp at hph
    · exact h.drainedClosed
    · exact h.outSelf
    · intro r hr
      rcases List.mem_or_eq_of_mem_set hr with hms | hre
      · exact h.pubSelf r hms
      · cases WorkerPhase.publish.inj hre
        exact digestBody_self env p
    · exact h.quietErrSend
    · exact h.quietErrc
    · intro hd hmem
      rcases List.mem_or_eq_of_mem_set hmem with hms | hre
      · exact h.exitClosed hd hms
      · simp at hre
    · intro hd0
      have hperm := h.perm hd0
      obtain ⟨hA, hB⟩ := filterMap_split pubPath s.workers i .await
        (.publish (digestBody env p)) hw
      have hdrop : items.drop s.fIdx = p :: items.drop (s.fIdx + 1) := by
        rw [List.drop_eq_getElem_cons hlt, hgetp]
      have hcons : p :: items.drop (s.fIdx + 1) =
          [p] ++ items.drop (s.fIdx + 1) := rfl
      rw [inflight, hA, hdrop, hcons] at hperm
      show ((s.outputs.map result.path : List String) : Multiset String) +
        (inflight (s.workers.set i (.publish (digestBody env p))) :
          Multiset String) +
        ((items.drop (s.fIdx + 1) : List String) : Multiset String) =
        (items : Multiset String)
      rw [inflight, hB]
      simp only [pubPath, digestBody_path, Option.toList, List.append_nil,
        List.nil_append, ← Multiset.coe_add] at hperm ⊢
      rw [← hperm]
      abel
  | feederDone hf hlt hd =>
    refine ⟨h.wlen, h.closedAll, fun _ => hlt, h.idxLe, ?_, h.drainedClosed,
      h.outSelf, h.pubSelf, ?_, ?_, ?_, ?_⟩
    · intro hph
      simp at hph
    · intro hd0
      simp [hd] at hd0
    · intro hd0
      simp [hd] at hd0
    · intro hd0
      simp [hd] at hd0
    · intro hd0
      simp [hd] at hd0
  | errPut hf he =>
    have hlt : s.fIdx < items.length := h.errIdx hf
    refine ⟨h.wlen, h.closedAll, ?_, ?_, ?_, h.drainedClosed,
      h.outSelf, h.pubSelf, ?_, ?_, ?_, ?_⟩
    · intro hph
      simp at hph
    · show s.fIdx + 1 ≤ items.length
      omega
    · intro hph
      simp at hph
    · intro _
      simp
    · intro hd0
      exact absurd hf (h.quietErrSend hd0)
    · intro hd0 _
      exact absurd hf (h.quietErrSend hd0)
    · intro hd0
      exact absurd hf (h.quietErrSend hd0)
  | closePaths hf hidx =>
    have hle := h.idxLe
    refine ⟨h.wlen, h.closedAll, ?_, h.idxLe, ?_, h.drainedClosed,
      h.outSelf, h.pubSelf, ?_, h.quietErrc, ?_, ?_⟩
    · intro hph
      simp at hph
    · intro _
      show s.fIdx = items.length
      omega
    · intro _
      simp
    · intro _ _
      rfl
    · intro hd0
      exact h.perm hd0
  | workerExit i hw hf =>
    refine ⟨?_, ?_, h.errIdx, h.idxLe, h.closedIdx, h.drainedClosed,
      h.outSelf, ?_, h.quietErrSend, h.quietErrc, ?_, ?_⟩
    · rw [List.length_set]
      exact h.wlen
    · intro hcc w hwmem
      rcases List.mem_or_eq_of_mem_set hwmem with hms | hre
      · exact h.closedAll hcc w hms
      · exact hre
    · intro r hr
      rcases List.mem_or_eq_of_mem_set hr with hms | hre
      · exact h.pubSelf r hms
      · simp at hre
    · intro _ _
      exact hf
    · intro hd0
      have heq := inflight_set_nonpub s.workers i .await .exited hw rfl rfl
      show ((s.outputs.map result.path : List String) : Multiset String) +
        (inflight (s.workers.set i .exited) : Multiset String) +
        ((items.drop s.fIdx : List String) : Multiset String) =
        (items : Multiset String)
      rw [heq]
      exact h.perm hd0
  | publish i r hw hc =>
    refine ⟨?_, ?_, h.errIdx, h.idxLe, h.closedIdx, ?_, ?_, ?_,
      h.quietErrSend, h.quietErrc, ?_, ?_⟩
    · rw [List.length_set]
      exact h.wlen
    · intro hcc w hwmem
      exact absurd (h.closedAll hcc _ (List.getElem?_mem hw)) (by simp)
    · intro hcons
      simp at hcons
    · intro r' hr'
      rcases List.mem_append.1 hr' with h1 | h2
      · exact h.outSelf r' h1
      · rw [List.mem_singleton] at h2
        cases h2
        exact h.pubSelf r (List.getElem?_mem hw)
    · intro r' hr'
      rcases List.mem_or_eq_of_mem_set hr' with hms | hre
      · exact h.pubSelf r' hms
      · simp at hre
    · intro hd hmem
      rcases List.mem_or_eq_of_mem_set hmem with hms | hre
      · exact h.exitClosed hd hms
      · simp at hre
    · intro hd0
      have hperm := h.perm hd0
      obtain ⟨hA, hB⟩ := filterMap_split pubPath s.workers i
        (.publish r) .await hw
      rw [inflight, hA] at hperm
      show (((s.outputs ++ [r]).map result.path : List String) :
          Multiset String) +
        (inflight (s.workers.set i .await) : Multiset String) +
        ((items.drop s.fIdx : List String) : Multiset String) =
        (items : Multiset String)
      rw [inflight, hB, List.map_append]
      simp only [pubPath, Option.toList, List.append_nil, List.nil_append,
        List.map_cons, List.map_nil, ← Multiset.coe_add] at hperm ⊢
      rw [← hperm]
      abel
  | abandon i r hw hd =>
    refine ⟨?_, ?_, h.errIdx, h.idxLe, h.closedIdx, h.drainedClosed,
      h.outSelf, ?_, ?_, ?_, ?_, ?_⟩
    · rw [List.length_set]
      exact h.wlen
    · intro hcc w hwmem
      rcases List.mem_or_eq_of_mem_set hwmem with hms | hre
      · exact h.closedAll hcc w hms
      · exact hre
    · intro r' hr'
      rcases List.mem_or_eq_of_mem_set hr' with hms | hre
      · exact h.pubSelf r' hms
      · simp at hre
    · intro hd0
      simp [hd] at hd0
    · intro hd0
      simp [hd] at hd0
    · intro hd0
      simp [hd] at hd0
    · intro hd0
      simp [hd] at hd0
  | checkAbort e hc he =>
    refine ⟨h.wlen, h.closedAll, h.errIdx, h.idxLe, h.closedIdx, ?_,
      h.outSelf, h.pubSelf, h.quietErrSend, ?_, h.exitClosed, ?_⟩
    · intro hcons
      simp at hcons
    · intro _
      rfl
    · intro hd0
      exact h.perm hd0
  | checkCont hc he =>
    refine ⟨h.wlen, h.closedAll, h.errIdx, h.idxLe, h.closedIdx, ?_,
      h.outSelf, h.pubSelf, h.quietErrSend, h.quietErrc, h.exitClosed, ?_⟩
    · intro hcons
      simp at hcons
    · intro hd0
      exact h.perm hd0
  | closeC hall hcc =>
    refine ⟨h.wlen, fun _ => hall, h.errIdx, h.idxLe, h.closedIdx, ?_,
      h.outSelf, h.pubSelf, h.quietErrSend, h.quietErrc, h.exitClosed, ?_⟩
    · intro _
      rfl
    · intro hd0
      exact h.perm hd0
  | consFinish hc hcc =>
    refine ⟨h.wlen, h.closedAll, h.errIdx, h.idxLe, h.closedIdx,
      fun _ => hcc, h.outSelf, h.pubSelf, h.quietErrSend, h.quietErrc,
      h.exitClosed, ?_⟩
    intro hd0
    exact h.perm hd0
  | cancel hd =>
    refine ⟨h.wlen, h.closedAll, h.errIdx, h.idxLe, h.closedIdx,
      h.drainedClosed, h.outSelf, h.pubSelf, ?_, ?_, ?_, ?_⟩
    · intro hd0
      simp at hd0
    · intro hd0
      simp at hd0
    · intro hd0
      simp at hd0
    · intro hd0
      simp at hd0

theorem inv_reach (env : GzEnv) (items : List String) (s : PState)
    (hr : Reach env items s) : Inv env items s := by
  induction hr with
  | refl => exact inv_init env items
  | tail _ hbc ih => exact inv_step env items hbc ih

/-- `done` is monotone: once the cancellation channel is closed it stays
closed. -/
theorem step_done_mono (env : GzEnv) (items : List String) {s s' : PState}
    (hst : Step env items s s') (hd : s.done = true) : s'.done = true := by
  cases hst <;> first | exact hd | rfl

/-! ## Claims about complete, cancellation-free executions -/

/-- In any reachable cancellation-free state whose consumer has drained the
stream, the received results' paths are a permutation of the enumerated
items, and there are exactly as many results as items. -/
theorem drained_outputs_perm (env : GzEnv) (items : List String) (s : PState)
    (hr : Reach env items s) (hnc : s.done = false)
    (hdr : s.cons = .drained) :
    s.outputs.length = items.length ∧
    (s.outputs.map result.path).Perm items := by
  have h := inv_reach env items s hr
  have hcc : s.cClosed = true := h.drainedClosed hdr
  have hall := h.closedAll hcc
  have hne : s.workers ≠ [] := by
    intro hnil
    have := h.wlen
    rw [hnil] at this
    simp [width] at this
  obtain ⟨w, hwmem⟩ := List.exists_mem_of_ne_nil s.workers hne
  have hmem : WorkerPhase.exited ∈ s.workers := (hall w hwmem) ▸ hwmem
  have hph : s.fPh = .closedPaths := h.exitClosed hnc hmem
  have hidx : s.fIdx = items.length := h.closedIdx hph
  have hinf : inflight s.workers = [] := by
    rw [inflight, List.filterMap_eq_nil_iff]
    intro w' hw'
    rw [hall w' hw']
    rfl
  have hperm := h.perm hnc
  rw [hinf, hidx, List.drop_length] at hperm
  simp only [Multiset.coe_nil, add_zero] at hperm
  have hP : (s.outputs.map result.path).Perm items := Multiset.coe_eq_coe.1 hperm
  refine ⟨?_, hP⟩
  have := hP.length_eq
  simpa using this

/-- C1: For every finite enumeration of N work items, when cancellation is
never signaled (`done` still false, hence — by monotonicity of `done` —
never signaled anywhere along the execution) and the consumer has drained
the output stream to exhaustion (its range loop ended), the consumer
received exactly N results, and the multiset of their path fields is
exactly the multiset of enumerated item identifiers — a bijection matching
each Result to the input item it came from. -/
theorem C1_completeness (env : GzEnv) (items : List String) (s : PState)
    (hr : Reach env items s) (hnc : s.done = false)
    (hdr : s.cons = .drained) :
    s.outputs.length = items.length ∧
    (s.outputs.map result.path).Perm items :=
  drained_outputs_perm env items s hr hnc hdr

/-- The directory-joined item list used by the concrete executions. -/
def itemsAC : List String := ["d/a.gz", "d/c.gz"]

/-- A complete cancellation-free schedule on two items: both are offered,
transformed and published, the feeder closes `paths`, all 16 workers exit,
the tracker closes `c`, and the consumer's range ends. -/
def drainLabelsAC : List Label :=
  [.offer 0, .offer 1, .closePaths, .publish 0, .checkCont, .publish 1,
   .checkCont, .workerExit 0, .workerExit 1, .workerExit 2, .workerExit 3,
   .workerExit 4, .workerExit 5, .workerExit 6, .workerExit 7, .workerExit 8,
   .workerExit 9, .workerExit 10, .workerExit 11, .workerExit 12,
   .workerExit 13, .workerExit 14, .workerExit 15, .closeC, .consFinish]

/-- The final state of `drainLabelsAC`. -/
def sDrainAC : PState :=
  { done := false, fIdx := 2, fPh := .closedPaths,
    workers := List.replicate 16 .exited,
    errc := none, cClosed := true, cons := .drained,
    outputs := [digestBody envDemo "d/a.gz", digestBody envDemo "d/c.gz"] }

/-- Witness for C1: the concrete drained execution on two items yields
exactly two results whose paths are the two items. -/
theorem C1_completeness_witness :
    runL envDemo itemsAC initState drainLabelsAC = some sDrainAC ∧
    sDrainAC.outputs.length = itemsAC.length ∧
    (sDrainAC.outputs.map result.path).Perm itemsAC := by
  have hrun : runL envDemo itemsAC initState drainLabelsAC = some sDrainAC := by
    decide
  exact ⟨hrun, C1_completeness envDemo itemsAC sDrainAC
    (runL_reach_init envDemo itemsAC drainLabelsAC sDrainAC hrun) rfl rfl⟩

/-- C6: A per-item transformation failure for item K stays in item K's own
Result: in every cancellation-free drained execution the error report slot
is still empty, every enumerated item (including those around K) still got
its own Result (bijection as in C1), every received Result is the digest of
its own path, and some received Result carries K with exactly its failure
in the error field. -/
theorem C6_failure_isolation (env : GzEnv) (items : List String)
    (K : String) (e : GoError) (s : PState)
    (hr : Reach env items s) (hnc : s.done = false) (hdr : s.cons = .drained)
    (hK : K ∈ items) (hfail : (digestBody env K).err = some e) :
    s.errc = none ∧
    (s.outputs.map result.path).Perm items ∧
    (∀ r ∈ s.outputs, r = digestBody env r.path) ∧
    ∃ r ∈ s.outputs, r.path = K ∧ r.err = some e := by
  have h := inv_reach env items s hr
  obtain ⟨-, hP⟩ := drained_outputs_perm env items s hr hnc hdr
  refine ⟨h.quietErrc hnc, hP, h.outSelf, ?_⟩
  have hKout : K ∈ s.outputs.map result.path := hP.mem_iff.2 hK
  obtain ⟨r, hrmem, hrpath⟩ := List.mem_map.1 hKout
  refine ⟨r, hrmem, hrpath, ?_⟩
  have hrd := h.outSelf r hrmem
  have : r.err = (digestBody env K).err := by
    conv_lhs => rw [hrd]
    rw [hrpath]
  exact this.trans hfail

/-- The item list with a corrupt second item (under `envDemo`). -/
def itemsAB : List String := ["d/a.gz", "d/b.gz"]

/-- The final state of the drained execution on `itemsAB`. -/
def sDrainAB : PState :=
  { done := false, fIdx := 2, fPh := .closedPaths,
    workers := List.replicate 16 .exited,
    errc := none, cClosed := true, cons := .drained,
    outputs := [digestBody envDemo "d/a.gz", digestBody envDemo "d/b.gz"] }

/-- Witness for C6: with `"d/b.gz"` failing to decode, the drained run still
delivers both results, the error report is empty, and the decode failure
rides only in the second item's own Result. -/
theorem C6_failure_isolation_witness :
    runL envDemo itemsAB initState drainLabelsAC = some sDrainAB ∧
    sDrainAB.errc = none ∧
    (sDrainAB.outputs.map result.path).Perm itemsAB ∧
    (∀ r ∈ sDrainAB.outputs, r = digestBody envDemo r.path) ∧
    ∃ r ∈ sDrainAB.outputs, r.path = "d/b.gz" ∧
      r.err = some "gzip: invalid header" := by
  have hrun : runL envDemo itemsAB initState drainLabelsAC = some sDrainAB := by
    decide
  have hmem : "d/b.gz" ∈ itemsAB := by decide
  have := C6_failure_isolation envDemo itemsAB "d/b.gz" "gzip: invalid header"
    sDrainAB (runL_reach_init envDemo itemsAB drainLabelsAC sDrainAB hrun)
    rfl rfl hmem rfl
  exact ⟨hrun, this.1, this.2.1, this.2.2.1, this.2.2.2⟩

/-! ## The empty enumeration (C9) -/

/-- Invariant of every execution over the empty enumeration: no worker ever
receives an item, nothing is published, the feeder never reaches the `errc`
send, and the error slot stays empty — with or without cancellation. -/
structure EmptyInv (s : PState) : Prop where
  noPub : ∀ w ∈ s.workers, w = .await ∨ w = .exited
  phase : s.fPh ≠ .errSend
  noErr : s.errc = none
  noOut : s.outputs = []

theorem emptyInv_step (env : GzEnv) {s s' : PState}
    (hst : Step env [] s s') (h : EmptyInv s) : EmptyInv s' := by
  cases hst with
  | offer i p hf hp hw => simp at hp
  | feederDone hf hlt hd => simp at hlt
  | errPut hf he => exact absurd hf h.phase
  | closePaths hf hidx =>
    exact ⟨h.noPub, by simp, h.noErr, h.noOut⟩
  | workerExit i hw hf =>
    refine ⟨?_, h.phase, h.noErr, h.noOut⟩
    intro w hwmem
    rcases List.mem_or_eq_of_mem_set hwmem with hms | hre
    · exact h.noPub w hms
    · exact Or.inr hre
  | publish i r hw hc =>
    rcases h.noPub _ (List.getElem?_mem hw) with h1 | h1 <;> simp at h1
  | abandon i r hw hd =>
    rcases h.noPub _ (List.getElem?_mem hw) with h1 | h1 <;> simp at h1
  | checkAbort e hc he =>
    rw [h.noErr] at he
    simp at he
  | checkCont hc he => exact ⟨h.noPub, h.phase, h.noErr, h.noOut⟩
  | closeC hall hcc => exact ⟨h.noPub, h.phase, h.noErr, h.noOut⟩
  | consFinish hc hcc => exact ⟨h.noPub, h.phase, h.noErr, h.noOut⟩
  | cancel hd => exact ⟨h.noPub, h.phase, h.noErr, h.noOut⟩

theorem emptyInv_reach (env : GzEnv) (s : PState) (hr : Reach env [] s) :
    EmptyInv s := by
  induction hr with
  | refl =>
    refine ⟨?_, by simp [initState], rfl, rfl⟩
    intro w hw
    exact Or.inl (List.eq_of_mem_replicate hw)
  | tail _ hbc ih => exact emptyInv_step env hbc ih

/-- C9: Over the empty enumeration, in every reachable state — whatever the
interleaving, even with cancellation — the consumer has received zero
results, the error report slot is empty, the feeder is never at the `errc`
send (its only action is to close `paths` at once), and the output channel
is closed only once all 16 workers have exited through intake exhaustion. -/
theorem C9_empty_enumeration (env : GzEnv) (s : PState)
    (hr : Reach env [] s) :
    s.outputs = [] ∧ s.errc = none ∧ s.fPh ≠ .errSend ∧
    (s.cClosed = true → ∀ w ∈ s.workers, w = .exited) := by
  have h1 := emptyInv_reach env s hr
  have h2 := inv_reach env [] s hr
  exact ⟨h1.noOut, h1.noErr, h1.phase, h2.closedAll⟩

/-- The schedule fully shutting down the pipeline on zero items. -/
def emptyLabels : List Label :=
  [.closePaths, .workerExit 0, .workerExit 1, .workerExit 2, .workerExit 3,
   .workerExit 4, .workerExit 5, .workerExit 6, .workerExit 7, .workerExit 8,
   .workerExit 9, .workerExit 10, .workerExit 11, .workerExit 12,
   .workerExit 13, .workerExit 14, .workerExit 15, .closeC, .consFinish]

/-- The final state of `emptyLabels`: fully shut down, zero results. -/
def sEmpty : PState :=
  { done := false, fIdx := 0, fPh := .closedPaths,
    workers := List.replicate 16 .exited,
    errc := none, cClosed := true, cons := .drained, outputs := [] }

/-- Witness for C9 on the concrete full-shutdown execution. -/
theorem C9_empty_enumeration_witness :
    runL envDemo [] initState emptyLabels = some sEmpty ∧
    sEmpty.outputs = [] ∧ sEmpty.errc = none ∧ sEmpty.fPh ≠ .errSend ∧
    (sEmpty.cClosed = true → ∀ w ∈ sEmpty.workers, w = .exited) := by
  have hrun : runL envDemo [] initState emptyLabels = some sEmpty := by decide
  have := C9_empty_enumeration envDemo sEmpty
    (runL_reach_init envDemo [] emptyLabels sEmpty hrun)
  exact ⟨hrun, this.1, this.2.1, this.2.2.1, this.2.2.2⟩

/-! ## Cancellation claims (C2, C3, C4, C5, C7)

The feeder's select has no `return` in its `<-done` case: after writing
`"canceled"` into `errc` the range loop continues with the next item.  The
concrete executions below exhibit the consequences. -/

/-- The schedule reaching the post-cancellation deadlock on `itemsAB`:
cancellation fires before any offer; the feeder takes the done branch for
item 0 and fills `errc`, then takes the done branch for item 1 and blocks
forever on the full `errc`; `paths` is never closed, so every worker stays
blocked on intake. -/
def deadlockLabels : List Label := [.cancel, .feederDone, .errPut, .feederDone]

/-- The deadlocked state reached by `deadlockLabels`. -/
def sDead : PState :=
  { done := true, fIdx := 1, fPh := .errSend,
    workers := List.replicate 16 .await,
    errc := some "canceled", cClosed := false, cons := .recv, outputs := [] }

/-- C5 (code bug): after cancellation is signaled with two items still
unoffered, the pipeline reaches a state from which NO component can take
any further step (`enabledB = false`; by `no_step_of_not_enabledB` no
`Step` leaves it): the feeder is blocked forever on its second `errc` send,
all 16 workers are blocked on intake, the output channel is never closed —
shutdown is not bounded, contradicting the claim. -/
theorem C5_cancellation_deadlock :
    runL envDemo itemsAB initState deadlockLabels = some sDead ∧
    sDead.done = true ∧ sDead.cClosed = false ∧ sDead.fPh = .errSend ∧
    sDead.workers = List.replicate 16 .await ∧
    enabledB itemsAB sDead = false := by
  exact ⟨by decide, rfl, rfl, rfl, rfl, by decide⟩

/-- The item list for the mid-stream deadlock execution. -/
def itemsABC : List String := ["d/a.gz", "d/b.gz", "d/c.gz"]

/-- A schedule on three items: the first item flows through completely, then
cancellation fires and the feeder's missing `return` deadlocks the
pipeline as in `deadlockLabels`. -/
def c2Labels : List Label :=
  [.offer 0, .publish 0, .checkCont, .cancel, .feederDone, .errPut,
   .feederDone]

/-- The stuck state reached by `c2Labels`. -/
def sStuckC2 : PState :=
  { done := true, fIdx := 2, fPh := .errSend,
    workers := List.replicate 16 .await,
    errc := some "canceled", cClosed := false, cons := .recv,
    outputs := [digestBody envDemo "d/a.gz"] }

/-- C2 (code bug): an execution in which the output channel is NOT closed
exactly once — it is never closed: after one result is delivered and
cancellation fires, the pipeline reaches a state with `cClosed = false`,
no worker exited, and no step enabled at all (`enabledB = false`, see
`no_step_of_not_enabledB`), so no continuation can ever run the tracker's
`close(c)`.  (The safety half of the claim does hold: `Inv.closedAll` shows
a closed output channel implies every worker already exited.) -/
theorem C2_close_never_happens_after_cancel_deadlock :
    runL envDemo itemsABC initState c2Labels = some sStuckC2 ∧
    sStuckC2.cClosed = false ∧
    sStuckC2.workers = List.replicate 16 .await ∧
    sStuckC2.outputs.length = 1 ∧
    enabledB itemsABC sStuckC2 = false := by
  exact ⟨by decide, rfl, rfl, rfl, by decide⟩

/-- The schedule showing the feeder offering an item AFTER having observed
cancellation: cancellation fires, the feeder takes the done branch for item
0 and reports "canceled", then — the loop having continued — offers item 1
to worker 0. -/
def c3Labels : List Label := [.cancel, .feederDone, .errPut, .offer 0]

/-- The state reached by `c3Labels`. -/
def sC3 : PState :=
  { done := true, fIdx := 2, fPh := .loop,
    workers := WorkerPhase.publish (digestBody envDemo "d/b.gz") ::
      List.replicate 15 .await,
    errc := some "canceled", cClosed := false, cons := .recv, outputs := [] }

/-- C3 (code bug): after the Source Feeder observes cancellation while
offering item 0 and writes its "canceled" failure, it does NOT stop: the
loop continues and the feeder sends item 1 on the intake channel (worker 0
is now holding its result), and its index has run through the whole
enumeration — contradicting "stops offering items … no further items are
sent on intake by the feeder after that observation".  (With more pending
items it instead blocks on a second `errc` write into the full slot, as in
the deadlock executions above — it does not terminate after one report
either.) -/
theorem C3_feeder_keeps_offering_after_cancel :
    runL envDemo itemsAB initState c3Labels = some sC3 ∧
    sC3.errc = some "canceled" ∧
    sC3.workers[0]? = some (.publish (digestBody envDemo "d/b.gz")) ∧
    sC3.fIdx = itemsAB.length := by
  exact ⟨by decide, rfl, rfl, rfl⟩

/-- C4 (amended): `errc` has capacity exactly one and a write attempted
while it holds a failure BLOCKS the writer: as long as the feeder sits at
the `errc` send with the slot full, no step moves the feeder (its phase and
index are unchanged by every transition), and the slot keeps the first
failure until the consumer itself receives it (which also makes the
consumer abort).  Nothing is silently dropped. -/
theorem C4_full_slot_blocks_writer (env : GzEnv) (items : List String)
    (s s' : PState) (e : GoError) (hst : Step env items s s')
    (hf : s.fPh = .errSend) (he : s.errc = some e) :
    s'.fPh = .errSend ∧ s'.fIdx = s.fIdx ∧
    (s'.errc = some e ∨ (s'.errc = none ∧ s'.cons = .aborted)) := by
  cases hst with
  | offer i p hf2 hp hw =>
    rw [hf] at hf2
    simp at hf2
  | feederDone hf2 hlt hd =>
    rw [hf] at hf2
    simp at hf2
  | errPut hf2 he2 =>
    rw [he] at he2
    simp at he2
  | closePaths hf2 hidx =>
    rw [hf] at hf2
    simp at hf2
  | workerExit i hw hf2 => exact ⟨hf, rfl, Or.inl he⟩
  | publish i r hw hc => exact ⟨hf, rfl, Or.inl he⟩
  | abandon i r hw hd => exact ⟨hf, rfl, Or.inl he⟩
  | checkAbort e2 hc he2 => exact ⟨hf, rfl, Or.inr ⟨rfl, rfl⟩⟩
  | checkCont hc he2 =>
    rw [he] at he2
    simp at he2
  | closeC hall hcc => exact ⟨hf, rfl, Or.inl he⟩
  | consFinish hc hcc => exact ⟨hf, rfl, Or.inl he⟩
  | cancel hd => exact ⟨hf, rfl, Or.inl he⟩

/-- Schedule reaching a state where the feeder attempts its second
"canceled" write while worker 0 still holds a publishable result. -/
def c4Labels : List Label :=
  [.offer 0, .cancel, .feederDone, .errPut, .feederDone]

/-- The state reached by `c4Labels`: feeder at the `errc` send with the
slot full, worker 0 publishing. -/
def sC4 : PState :=
  { done := true, fIdx := 2, fPh := .errSend,
    workers := WorkerPhase.publish (digestBody envDemo "d/a.gz") ::
      List.replicate 15 .await,
    errc := some "canceled", cClosed := false, cons := .recv, outputs := [] }

/-- The successor of `sC4` by worker 0's publish. -/
def sC4after : PState :=
  { done := true, fIdx := 2, fPh := .errSend,
    workers := List.replicate 16 .await,
    errc := some "canceled", cClosed := false, cons := .check,
    outputs := [digestBody envDemo "d/a.gz"] }

/-- Counterexample to C4 as stated: in the reachable state `sC4` the second
"canceled" report is being written into the already-full slot, and the
writer IS blocked — no feeder transition is enabled (`feederStepB = false`;
by `feeder_blocked_of_not_feederStepB` every step leaves the feeder's phase
and index unchanged), and nothing is dropped: the write stays pending
rather than being discarded. -/
theorem C4_counterexample_second_write_blocks :
    runL envDemo itemsABC initState c4Labels = some sC4 ∧
    sC4.fPh = .errSend ∧ sC4.errc = some "canceled" ∧
    feederStepB itemsABC sC4 = false := by
  exact ⟨by decide, rfl, rfl, by decide⟩

/-- Witness for the amended C4: applying the theorem to the concrete step
in which worker 0 publishes from `sC4` — the feeder stays blocked at the
send with the same index, and the slot still holds the first failure. -/
theorem C4_full_slot_blocks_writer_witness :
    applyLabel envDemo itemsABC sC4 (.publish 0) = some sC4after ∧
    sC4after.fPh = .errSend ∧ sC4after.fIdx = sC4.fIdx ∧
    (sC4after.errc = some "canceled" ∨
      (sC4after.errc = none ∧ sC4after.cons = .aborted)) := by
  have happ : applyLabel envDemo itemsABC sC4 (.publish 0) = some sC4after := by
    decide
  have := C4_full_slot_blocks_writer envDemo itemsABC sC4 sC4after "canceled"
    (applyLabel_sound envDemo itemsABC sC4 sC4after (.publish 0) happ) rfl rfl
  exact ⟨happ, this⟩

/-- The one-item list for the C7 executions. -/
def items1 : List String := ["d/a.gz"]

/-- Schedule bringing worker 0 to its publishing select and then firing
cancellation. -/
def c7Labels : List Label := [.offer 0, .cancel]

/-- The state after `c7Labels`: cancellation signaled while worker 0 is
trying to publish its result. -/
def sC7 : PState :=
  { done := true, fIdx := 1, fPh := .loop,
    workers := WorkerPhase.publish (digestBody envDemo "d/a.gz") ::
      List.replicate 15 .await,
    errc := none, cClosed := false, cons := .recv, outputs := [] }

/-- The successor of `sC7` in which the worker nevertheless publishes. -/
def sC7after : PState :=
  { done := true, fIdx := 1, fPh := .loop,
    workers := List.replicate 16 .await,
    errc := none, cClosed := false, cons := .check,
    outputs := [digestBody envDemo "d/a.gz"] }

/-- Counterexample to C7 as stated: cancellation has fired while worker 0
is trying to publish (`sC7`), yet in the next step the worker completes the
publish — the consumer receives the result — and returns to its intake
loop instead of exiting.  Go's select picks either ready case, so the
worker does not necessarily abandon the result and exit. -/
theorem C7_counterexample_publish_after_cancel :
    runL envDemo items1 initState c7Labels = some sC7 ∧
    sC7.done = true ∧
    sC7.workers[0]? = some (.publish (digestBody envDemo "d/a.gz")) ∧
    applyLabel envDemo items1 sC7 (.publish 0) = some sC7after ∧
    sC7after.outputs = [digestBody envDemo "d/a.gz"] ∧
    sC7after.workers[0]? = some .await := by
  exact ⟨by decide, rfl, rfl, by decide, rfl, rfl⟩

/-- C7 (amended): when cancellation has fired while a worker is trying to
publish, the worker's done branch is always enabled: abandoning the result
and exiting immediately is a possible next step, it publishes nothing (the
outputs are unchanged) and leaves the worker permanently exited; so the
worker is never forced to block on a consumer that no longer reads.  (It
is not forced to take this branch: if the consumer is still reading, the
publish may win the select instead — see the counterexample.) -/
theorem C7_abandon_branch_enabled (env : GzEnv) (items : List String)
    (s : PState) (i : Nat) (r : result)
    (hw : s.workers[i]? = some (.publish r)) (hd : s.done = true) :
    Step env items s { s with workers := s.workers.set i .exited } ∧
    ({ s with workers := s.workers.set i .exited } : PState).outputs =
      s.outputs ∧
    (s.workers.set i .exited)[i]? = some .exited := by
  refine ⟨.abandon s i r hw hd, rfl, ?_⟩
  have hlt : i < s.workers.length := (List.getElem?_eq_some_iff.1 hw).1
  exact List.getElem?_set_self hlt

/-- Witness for the amended C7 at the concrete state `sC7`. -/
theorem C7_abandon_branch_enabled_witness :
    Step envDemo items1 sC7
      { sC7 with workers := sC7.workers.set 0 .exited } ∧
    ({ sC7 with workers := sC7.workers.set 0 .exited } : PState).outputs =
      sC7.outputs ∧
    (sC7.workers.set 0 .exited)[0]? = some .exited := by
  exact C7_abandon_branch_enabled envDemo items1 sC7 0
    (digestBody envDemo "d/a.gz") rfl rfl

end Bigd
